import Mathlib

/-!
# minthumb: the thumbnail request handler

A shallow embedding of `src/main.go`: the key derivation
`filepath.Join(config.ThumbPath, path)` and the body of the HTTP handler
registered on "/", with the object store, the codecs, the resizer and the
response writer as collaborators whose calls are recorded in a trace.
-/

namespace Minthumb

/-! ## `path/filepath` on a slash-separated platform

Go strings are byte sequences; the only bytes the cleaning algorithm inspects
are `/` (0x2F) and `.` (0x2E), which never occur inside a multi-byte UTF-8
sequence, so working on characters instead of bytes makes no difference. -/

/-- Go's `os.IsPathSeparator` (Unix): the byte is a slash. -/
def isPathSeparator (c : Char) : Bool := c == '/'

/-- The inner loop of the `..` case of `filepath.Clean`, entered after the
first `out.w--`: `removed` is the byte at the new index `out.w`
(`out.index(out.w)`), `out` holds the bytes before it.
`for out.w > dotdot && !os.IsPathSeparator(out.index(out.w)) { out.w-- }`.
The list is the written prefix of the buffer in reverse order. -/
def backtrackLoop (dotdot : Nat) : Char → List Char → List Char
  | _, [] => []
  | removed, c :: revOut =>
    if dotdot < (c :: revOut).length && !isPathSeparator removed then
      backtrackLoop dotdot c revOut
    else c :: revOut

/-- The `out.w > dotdot` branch of the `..` case: `out.w--`, then the inner
loop. The written prefix of the buffer is kept in reverse order. -/
def backtrack (dotdot : Nat) : List Char → List Char
  | [] => []
  | c :: revOut => backtrackLoop dotdot c revOut

/-- State of the main loop of `filepath.Clean`: the written prefix of the
output buffer (`out.buf[:out.w]`, so `out.w` is its length) and `dotdot`. -/
structure CleanState where
  out : List Char
  dotdot : Nat
deriving DecidableEq, Repr

/-- One iteration of the `for r < n` loop of `filepath.Clean`, at a byte `c`
(`path[r]`) followed by `rest` (`path[r+1:]`): the unread suffix after the
iteration and the new state. -/
def cleanStep (rooted : Bool) (c : Char) (rest : List Char) (st : CleanState) :
    List Char × CleanState :=
  if isPathSeparator c then
    -- empty path element
    (rest, st)
  else if c == '.' && (rest.isEmpty || (rest.head?.map isPathSeparator == some true)) then
    -- . element
    (rest, st)
  else if c == '.' && rest.head? == some '.' &&
      (rest.tail.isEmpty || (rest.tail.head?.map isPathSeparator == some true)) then
    -- .. element: remove to last separator
    if st.dotdot < st.out.length then
      -- can backtrack
      (rest.tail, { st with out := (backtrack st.dotdot st.out.reverse).reverse })
    else if !rooted then
      -- cannot backtrack, but not rooted, so append .. element
      let o := (if 0 < st.out.length then st.out ++ ['/'] else st.out) ++ ['.', '.']
      (rest.tail, { out := o, dotdot := o.length })
    else
      (rest.tail, st)
  else
    -- real path element: add slash if needed, copy element
    let o := if (rooted && st.out.length != 1) || (!rooted && st.out.length != 0)
      then st.out ++ ['/'] else st.out
    ((c :: rest).dropWhile (fun x => !isPathSeparator x),
      { st with out := o ++ (c :: rest).takeWhile (fun x => !isPathSeparator x) })

/-- The `for r < n` loop of `filepath.Clean`. The reading index `r` is
represented by the unread suffix `path[r:]`; every iteration consumes at
least one byte, so `fuel = len(path)` iterations always suffice
(`cleanLoopRest_nil`, `cleanLoop_fuel`). -/
def cleanLoop (rooted : Bool) : Nat → List Char → CleanState → CleanState
  | 0, _, st => st
  | _ + 1, [], st => st
  | fuel + 1, c :: rest, st =>
    cleanLoop rooted fuel (cleanStep rooted c rest st).1 (cleanStep rooted c rest st).2

/-- The unread suffix `path[r:]` at which `cleanLoop` stops: empty when the
loop ended because `r < n` failed, not because the fuel ran out. -/
def cleanLoopRest (rooted : Bool) : Nat → List Char → CleanState → List Char
  | 0, x, _ => x
  | _ + 1, [], _ => []
  | fuel + 1, c :: rest, st =>
    cleanLoopRest rooted fuel (cleanStep rooted c rest st).1 (cleanStep rooted c rest st).2

/-- Go's `filepath.Clean` on Unix (no volume name, `FromSlash` is the
identity). -/
def Clean (path : List Char) : List Char :=
  match path with
  | [] => ['.']
  | c :: rest =>
    let rooted := isPathSeparator c
    let st := if rooted
      then cleanLoop rooted rest.length rest { out := ['/'], dotdot := 1 }
      else cleanLoop rooted path.length path { out := [], dotdot := 0 }
    if st.out.length == 0 then ['.'] else st.out

/-- Go's `strings.Join(elems, "/")`. -/
def stringsJoin : List (List Char) → List Char
  | [] => []
  | [e] => e
  | e :: es => e ++ '/' :: stringsJoin es

/-- Go's `filepath.Join` on Unix: skip leading empty elements, join the rest
with the separator (later empty elements included) and clean the result;
the empty string when every element is empty. -/
def Join : List (List Char) → List Char
  | [] => []
  | e :: es => if e ≠ [] then Clean (stringsJoin (e :: es)) else Join es

/-- The thumbnail key of the handler:
`thumbPath := filepath.Join(config.ThumbPath, path)`. -/
def thumbPath (prefx path : List Char) : List Char := Join [prefx, path]

/-- The main loop of `filepath.Clean` run over a whole unread suffix. -/
def cleanRun (rooted : Bool) (path : List Char) (st : CleanState) : CleanState :=
  cleanLoop rooted path.length path st

/-- The state `filepath.Clean` enters its loop with: `out` holds the leading
separator and `dotdot = 1` for a rooted path, both are empty otherwise. -/
def cleanInit (rooted : Bool) : CleanState :=
  if rooted then { out := ['/'], dotdot := 1 } else { out := [], dotdot := 0 }

/-- The condition under which `filepath.Clean` writes a separator before a
real path element: `rooted && out.w != 1 || !rooted && out.w != 0`. -/
def needsSep (rooted : Bool) (out : List Char) : Bool :=
  (rooted && out.length != 1) || (!rooted && out.length != 0)

/-- The output buffer after the "add slash if needed" step of a real path
element. -/
def withSep (rooted : Bool) (out : List Char) : List Char :=
  if needsSep rooted out then out ++ ['/'] else out

/-- The end of `filepath.Clean`: "Turn empty string into "."". -/
def cleanFinish (out : List Char) : List Char :=
  if out.length == 0 then ['.'] else out

/-- Whether `filepath.Join(prefx, '/' :: q)` cleans a rooted string, and the
state of the cleaning loop once it has read the configured prefix (nothing
yet when the prefix is empty: `Join` then cleans the request path alone). -/
def prefixState (prefx : List Char) : Bool × CleanState :=
  match prefx with
  | [] => (true, cleanInit true)
  | c :: pr => (isPathSeparator c, cleanRun (isPathSeparator c) (c :: pr)
      (cleanInit (isPathSeparator c)))

/-- For a rooted path `dotdot` stays 1 and the buffer keeps its leading
byte. -/
def RootedInv (rooted : Bool) (st : CleanState) : Prop :=
  rooted = true → st.dotdot = 1 ∧ 1 ≤ st.out.length

/-- A path element that `filepath.Clean` copies as it is: not empty, free of
separators, and neither `.` nor `..`. -/
def IsElem (e : List Char) : Prop :=
  e ≠ [] ∧ (∀ c ∈ e, isPathSeparator c = false) ∧ e ≠ ['.'] ∧ e ≠ ['.', '.']

instance (e : List Char) : Decidable (IsElem e) := by
  unfold IsElem
  infer_instance

/-- The path `/e1/e2/.../en` of the elements `e1, ..., en`. -/
def slashed : List (List Char) → List Char
  | [] => []
  | e :: es => '/' :: e ++ slashed es

/-- A rooted, lexically clean path other than the root: `/e1/.../en`, `n ≥ 1`,
without empty, `.` or `..` elements and without a trailing slash. -/
def IsCleanPath (p : List Char) : Prop :=
  ∃ es, es ≠ [] ∧ (∀ e ∈ es, IsElem e) ∧ p = slashed es

/-- A request path in cleaned form: the root `/` or a clean path below it. -/
def IsCleanRequestPath (p : List Char) : Prop :=
  p = ['/'] ∨ IsCleanPath p

/-- A configured prefix that joins by plain concatenation: empty, or a clean
path `/e1/.../en` or `e1/.../en`, `n ≥ 1`, without a trailing slash. -/
def IsCleanPrefix (q : List Char) : Prop :=
  q = [] ∨ ∃ es, es ≠ [] ∧ (∀ e ∈ es, IsElem e) ∧ (q = slashed es ∨ q = (slashed es).tail)

/-! ## Collaborators of the handler -/

/-- Byte strings: object contents, encoded images, pixel data. -/
abbrev Bytes := List Nat

/-- Error values as the handler's type switch sees them: a
`minio.ErrorResponse` with its `Code`, or an error of any other type. -/
inductive Err where
  | errorResponse (Code : String)
  | other (msg : String)
deriving DecidableEq, Repr

/-- A `*minio.Object` as a stream: the bytes it yields when read, and the
error (if any) reported in place of end-of-file. -/
structure Object where
  data : Bytes
  readErr : Option Err
deriving DecidableEq, Repr

/-- Go's `image.Point`. -/
structure Point where
  X : Int
  Y : Int
deriving DecidableEq, Repr

/-- Go's `image.Rectangle`. -/
structure Rectangle where
  Min : Point
  Max : Point
deriving DecidableEq, Repr

/-- Go's `image.Rect`: the rectangle with the coordinates put in order. -/
def Rect (x0 y0 x1 y1 : Int) : Rectangle :=
  let xa := if x0 > x1 then x1 else x0
  let xb := if x0 > x1 then x0 else x1
  let ya := if y0 > y1 then y1 else y0
  let yb := if y0 > y1 then y0 else y1
  { Min := { X := xa, Y := ya }, Max := { X := xb, Y := yb } }

/-- Go's 64-bit `int` arithmetic: the result of an operation, wrapped into
the range from `-2^63` to `2^63 - 1`. -/
def wrapInt64 (z : Int) : Int := (z + 2 ^ 63) % 2 ^ 64 - 2 ^ 63

/-- Go's `Rectangle.Dx`. -/
def Rectangle.Dx (r : Rectangle) : Int := wrapInt64 (r.Max.X - r.Min.X)

/-- Go's `Rectangle.Dy`. -/
def Rectangle.Dy (r : Rectangle) : Int := wrapInt64 (r.Max.Y - r.Min.Y)

/-- Go's `image.RGBA`. -/
structure RGBA where
  Pix : Bytes
  Stride : Int
  Rect : Rectangle
deriving DecidableEq, Repr

/-- Go's `image.mul3NonNeg` on a 64-bit `int`: the product, or `-1` when an
argument is negative or a partial product overflows. -/
def mul3NonNeg (x y z : Int) : Int :=
  if x < 0 ∨ y < 0 ∨ z < 0 then -1
  else if 2 ^ 64 ≤ x * y then -1
  else if 2 ^ 64 ≤ x * y * z then -1
  else if 2 ^ 63 ≤ x * y * z then -1
  else x * y * z

/-- The largest slice `make([]uint8, n)` accepts on 64-bit Linux: the
runtime's `maxAlloc`; `makeslice` panics above it. -/
def maxAlloc : Int := 2 ^ 48

/-- Go's `image.NewRGBA`: a zeroed buffer with bounds `r`. The result `none`
is a panic: "Rectangle has huge or negative dimensions" of
`pixelBufferLength`, or "makeslice: len out of range" of `make`. Running out
of memory on a smaller allocation ends the process and is not modelled. -/
def NewRGBA (r : Rectangle) : Option RGBA :=
  let totalLength := mul3NonNeg 4 r.Dx r.Dy
  if totalLength < 0 then none
  else if maxAlloc < totalLength then none
  else some { Pix := List.replicate totalLength.toNat 0, Stride := wrapInt64 (4 * r.Dx),
              Rect := r }

/-- The fields of `Config` the handler reads. `Quality` is a `float32`, kept
abstract. `X` and `Y` are Go `int`s, so they lie in the 64-bit range. -/
structure Config (Q : Type) where
  Quality : Q
  X : Int
  Y : Int
  ThumbPath : List Char
  Bucket : String
  X_range : -2 ^ 63 ≤ X ∧ X < 2 ^ 63
  Y_range : -2 ^ 63 ≤ Y ∧ Y < 2 ^ 63

/-- The three `minio.Client` calls of the handler, over a store state `σ`.
`statObject` returns the error (`none` for `nil`); `putObject` returns the
store after the call and the error. -/
structure Store (σ : Type) where
  statObject : σ → String → List Char → Option Err
  getObject : σ → String → List Char → Except Err Object
  putObject : σ → String → List Char → Bytes → Int → String → σ × Option Err

/-- The codec and resizer calls of the handler: `image.Decode`,
`graphics.Thumbnail` (which can only change the pixels of the destination it
is handed, through `draw.Image`, and returns an error),
`encoder.NewLossyEncoderOptions(encoder.PresetDefault, _)` and `webp.Encode`
into a fresh buffer. -/
structure Codec (S O Q : Type) where
  decode : Object → Except Err S
  thumbnail : RGBA → S → Bytes × Option Err
  newLossyEncoderOptions : Q → Except Err O
  encode : RGBA → O → Except Err Bytes

/-- Calls the handler makes, in program order. -/
inductive Event (S O Q : Type) where
  | statObject (bucket : String) (key : List Char)
  | getObject (bucket : String) (key : List Char)
  | ioCopy (src : Object)
  | decode (src : Object)
  | newRGBA (r : Rectangle)
  | thumbnail (dst : RGBA) (src : S)
  | newLossyEncoderOptions (quality : Q)
  | encode (img : RGBA) (options : O)
  | goWrite (b : Bytes)
  | putObject (bucket : String) (key : List Char) (data : Bytes) (size : Int)
      (contentType : String)
  | close (obj : Object)
  | log (e : Err)
deriving DecidableEq, Repr

/-- What one run of the handler did: the store afterwards, the calls made, the
bytes handed to the `http.ResponseWriter` (by `io.Copy` or by the
`go w.Write(...)` statement), and whether it ended in a panic. -/
structure Outcome (σ S O Q : Type) where
  store : σ
  trace : List (Event S O Q)
  response : Bytes
  panicked : Bool

/-! ## The handler -/

section Handler

variable {σ S O Q : Type}

/-- The `if exist` branch (lines 126-135). `io.Copy` hands the writer every
byte the object yields before end-of-file or a read error. -/
def hitBranch (st : Store σ) (config : Config Q) (s : σ)
    (thumbPath : List Char) (tr : List (Event S O Q)) : Outcome σ S O Q :=
  match st.getObject s config.Bucket thumbPath with
  | .error e =>
    ⟨s, tr ++ [.getObject config.Bucket thumbPath, .log e], [], false⟩
  | .ok thumb =>
    match thumb.readErr with
    | some e =>
      ⟨s, tr ++ [.getObject config.Bucket thumbPath, .ioCopy thumb, .log e], thumb.data, false⟩
    | none =>
      ⟨s, tr ++ [.getObject config.Bucket thumbPath, .ioCopy thumb], thumb.data, false⟩

/-- The `else` branch (lines 137-178). The deferred `object.Close()` runs last
on every path after the origin object was obtained. The `go w.Write(...)`
statement is recorded where it is issued, before `PutObject`; when the
goroutine runs is not modelled. -/
def missBranch (st : Store σ) (cd : Codec S O Q) (config : Config Q) (s : σ)
    (path thumbPath : List Char) (tr : List (Event S O Q)) : Outcome σ S O Q :=
  match st.getObject s config.Bucket path with
  | .error e =>
    ⟨s, tr ++ [.getObject config.Bucket path, .log e], [], false⟩
  | .ok object =>
    let tr1 := tr ++ [.getObject config.Bucket path, .decode object]
    match cd.decode object with
    | .error e => ⟨s, tr1 ++ [.log e, .close object], [], false⟩
    | .ok srcImage =>
      let tr2 := tr1 ++ [.newRGBA (Rect 0 0 config.X config.Y)]
      match NewRGBA (Rect 0 0 config.X config.Y) with
      | none => ⟨s, tr2 ++ [.close object], [], true⟩
      | some dst =>
        let tr3 := tr2 ++ [.thumbnail dst srcImage]
        let dstImage : RGBA := { dst with Pix := (cd.thumbnail dst srcImage).1 }
        match (cd.thumbnail dst srcImage).2 with
        | some e => ⟨s, tr3 ++ [.log e, .close object], [], false⟩
        | none =>
          let tr4 := tr3 ++ [.newLossyEncoderOptions config.Quality]
          match cd.newLossyEncoderOptions config.Quality with
          | .error e => ⟨s, tr4 ++ [.log e, .close object], [], false⟩
          | .ok options =>
            let tr5 := tr4 ++ [.encode dstImage options]
            match cd.encode dstImage options with
            | .error e => ⟨s, tr5 ++ [.log e, .close object], [], false⟩
            | .ok buf =>
              let size : Int := buf.length
              let tr6 := tr5 ++ [.goWrite buf,
                .putObject config.Bucket thumbPath buf size "image/webp"]
              match (st.putObject s config.Bucket thumbPath buf size "image/webp").2 with
              | some e =>
                ⟨(st.putObject s config.Bucket thumbPath buf size "image/webp").1,
                  tr6 ++ [.log e, .close object], buf, false⟩
              | none =>
                ⟨(st.putObject s config.Bucket thumbPath buf size "image/webp").1,
                  tr6 ++ [.close object], buf, false⟩

/-- The function registered by `http.HandleFunc("/", ...)` (lines 103-180),
for a request with `req.URL.Path = path`, run on store state `s`. -/
def handler (st : Store σ) (cd : Codec S O Q) (config : Config Q) (s : σ)
    (path : List Char) : Outcome σ S O Q :=
  let thumbPath := Join [config.ThumbPath, path]
  let tr : List (Event S O Q) := [.statObject config.Bucket thumbPath]
  match st.statObject s config.Bucket thumbPath with
  | some (.errorResponse code) =>
    if code = "NoSuchKey" then
      missBranch st cd config s path thumbPath tr
    else
      ⟨s, tr ++ [.log (.errorResponse code)], [], false⟩
  | some (.other msg) => ⟨s, tr ++ [.log (.other msg)], [], false⟩
  | none => hitBranch st config s thumbPath tr

end Handler

/-! ## The store as a key-to-bytes map -/

/-- Contents of the configured bucket. -/
abbrev MapStore := List Char → Option Bytes

/-- An object store that is a key-to-bytes map with a faithful existence
check: `StatObject` fails with code "NoSuchKey" exactly on absent keys,
`GetObject` is lazy as in minio-go (it succeeds, and reading an absent key
reports "NoSuchKey"), `PutObject` sets the key to the data and succeeds. -/
def mapStore : Store MapStore where
  statObject := fun s _ k =>
    match s k with
    | some _ => none
    | none => some (.errorResponse "NoSuchKey")
  getObject := fun s _ k =>
    match s k with
    | some b => .ok { data := b, readErr := none }
    | none => .ok { data := [], readErr := some (.errorResponse "NoSuchKey") }
  putObject := fun s _ k b _ _ => (fun k2 => if k2 = k then some b else s k2, none)

/-- The event is a store write. -/
def Event.isPutObject {S O Q : Type} : Event S O Q → Bool
  | .putObject _ _ _ _ _ => true
  | _ => false

/-- The event is a store get. -/
def Event.isGetObject {S O Q : Type} : Event S O Q → Bool
  | .getObject _ _ => true
  | _ => false

/-- The event belongs to the generation of a thumbnail: decode, buffer
allocation, resize, encoder options, encode, the asynchronous response write
or the store write. -/
def Event.isGeneration {S O Q : Type} : Event S O Q → Bool
  | .decode _ => true
  | .newRGBA _ => true
  | .thumbnail _ _ => true
  | .newLossyEncoderOptions _ => true
  | .encode _ _ => true
  | .goWrite _ => true
  | .putObject _ _ _ _ _ => true
  | _ => false

/-! ## Concrete collaborators used to exercise the statements -/

/-- A toy codec: a source image is the list of its bytes; decoding fails on a
read error and on an empty stream; the resizer paints every pixel byte with
the first source byte; options exist for qualities up to 100; the encoder
emits the quality followed by the pixel bytes. -/
def demoCodec : Codec Bytes Nat Nat where
  decode := fun obj =>
    match obj.readErr with
    | some e => .error e
    | none => if obj.data = [] then .error (.other "image: unknown format") else .ok obj.data
  thumbnail := fun dst src => (dst.Pix.map (fun _ => src.headD 0), none)
  newLossyEncoderOptions := fun q =>
    if q ≤ 100 then .ok q else .error (.other "quality out of range")
  encode := fun img options => .ok (options :: img.Pix)

/-- A configuration with a 2×1 target and the prefix `thumbs`. -/
def demoConfig : Config Nat where
  Quality := 80
  X := 2
  Y := 1
  ThumbPath := "thumbs".toList
  Bucket := "images"
  X_range := by decide
  Y_range := by decide

/-- The same configuration with the empty prefix, the `thumb_path` of the
configuration file the program writes when none exists. -/
def emptyPrefixConfig : Config Nat where
  Quality := 80
  X := 2
  Y := 1
  ThumbPath := []
  Bucket := "images"
  X_range := by decide
  Y_range := by decide

/-- The zeroed 2×1 buffer `image.NewRGBA` returns for `demoConfig`. -/
def demoDst : RGBA where
  Pix := [0, 0, 0, 0, 0, 0, 0, 0]
  Stride := 8
  Rect := { Min := { X := 0, Y := 0 }, Max := { X := 2, Y := 1 } }

/-- A bucket holding one original, one undecodable object and no thumbnail. -/
def demoBucket : MapStore := fun k =>
  if k = "/photos/a.jpg".toList then some [7, 8, 9]
  else if k = "/photos/corrupt.bin".toList then some []
  else none

/-- A store without a thumbnail whose writes are refused. -/
def readOnlyStore : Store Unit where
  statObject := fun _ _ _ => some (.errorResponse "NoSuchKey")
  getObject := fun _ _ _ => .ok { data := [7, 8, 9], readErr := none }
  putObject := fun _ _ _ _ _ _ => ((), some (.errorResponse "AccessDenied"))

/-- A store whose existence check fails with the given error. -/
def faultyStatStore (e : Err) : Store Unit where
  statObject := fun _ _ _ => some e
  getObject := fun _ _ _ => .ok { data := [7, 8, 9], readErr := none }
  putObject := fun _ _ _ _ _ _ => ((), none)

/-! ## `filepath.Clean`: fuel, splitting at a separator, clean elements -/

theorem cleanStep_length (rooted : Bool) (c : Char) (rest : List Char) (st : CleanState) :
    (cleanStep rooted c rest st).1.length ≤ rest.length := by
  unfold cleanStep
  split
  · exact le_rfl
  · split
    · exact le_rfl
    · split
      · have ht : rest.tail.length ≤ rest.length := by simp
        split
        · exact ht
        · split <;> exact ht
      · rename_i hc _ _
        have hp : (fun x => !isPathSeparator x) c = true := by simpa using hc
        simp only [List.dropWhile_cons, hp, if_true]
        exact (List.dropWhile_suffix _).length_le

/-- Any fuel of at least the length of the unread suffix gives the same
result: the loop runs to completion with `fuel = len(path)`. -/
theorem cleanLoop_fuel (rooted : Bool) :
    ∀ (f1 f2 : Nat) (x : List Char) (st : CleanState), x.length ≤ f1 → x.length ≤ f2 →
      cleanLoop rooted f1 x st = cleanLoop rooted f2 x st := by
  intro f1
  induction f1 with
  | zero =>
    intro f2 x st h1 _
    have hx : x = [] := List.length_eq_zero.mp (Nat.le_zero.mp h1)
    subst hx
    cases f2 <;> rfl
  | succ n ih =>
    intro f2 x st h1 h2
    cases x with
    | nil => cases f2 <;> rfl
    | cons c rest =>
      cases f2 with
      | zero => simp at h2
      | succ m =>
        simp only [cleanLoop]
        have hl := cleanStep_length rooted c rest st
        simp only [List.length_cons] at h1 h2
        exact ih m _ _ (by omega) (by omega)

/-- With `fuel = len(path)` (or more) the loop reads the whole path. -/
theorem cleanLoopRest_nil (rooted : Bool) :
    ∀ (f : Nat) (x : List Char) (st : CleanState), x.length ≤ f →
      cleanLoopRest rooted f x st = [] := by
  intro f
  induction f with
  | zero =>
    intro x st h
    have hx : x = [] := List.length_eq_zero.mp (Nat.le_zero.mp h)
    subst hx
    rfl
  | succ n ih =>
    intro x st h
    cases x with
    | nil => rfl
    | cons c rest =>
      simp only [cleanLoopRest]
      have hl := cleanStep_length rooted c rest st
      simp only [List.length_cons] at h
      exact ih _ _ (by omega)

/-- Rows of the table Go's own tests check `Clean` against. -/
theorem Clean_table :
    Clean "".toList = ".".toList
      ∧ Clean "/".toList = "/".toList
      ∧ Clean "abc/def/".toList = "abc/def".toList
      ∧ Clean "abc//def//ghi".toList = "abc/def/ghi".toList
      ∧ Clean "/./abc/def".toList = "/abc/def".toList
      ∧ Clean "abc/def/../ghi/../jkl".toList = "abc/jkl".toList
      ∧ Clean "abc/def/../..".toList = ".".toList
      ∧ Clean "/abc/def/../../..".toList = "/".toList
      ∧ Clean "abc/def/../../../ghi/jkl/../../../mno".toList = "../../mno".toList
      ∧ Clean "/../abc".toList = "/abc".toList
      ∧ Clean "abc/../../././../def".toList = "../../def".toList := by
  decide

theorem cleanLoop_eq_cleanRun (rooted : Bool) (f : Nat) (x : List Char) (st : CleanState)
    (h : x.length ≤ f) : cleanLoop rooted f x st = cleanRun rooted x st :=
  cleanLoop_fuel rooted f x.length x st h le_rfl

theorem cleanRun_nil (rooted : Bool) (st : CleanState) : cleanRun rooted [] st = st := rfl

theorem cleanRun_cons (rooted : Bool) (c : Char) (rest : List Char) (st : CleanState) :
    cleanRun rooted (c :: rest) st
      = cleanRun rooted (cleanStep rooted c rest st).1 (cleanStep rooted c rest st).2 := by
  show cleanLoop rooted (rest.length + 1) (c :: rest) st = _
  simp only [cleanLoop]
  exact cleanLoop_eq_cleanRun rooted _ _ _ (cleanStep_length rooted c rest st)

theorem cleanRun_sep (rooted : Bool) (rest : List Char) (st : CleanState) :
    cleanRun rooted ('/' :: rest) st = cleanRun rooted rest st := by
  rw [cleanRun_cons]
  simp [cleanStep, isPathSeparator]

theorem takeWhile_append_sep (a rest : List Char) :
    (a ++ '/' :: rest).takeWhile (fun x => !isPathSeparator x)
      = a.takeWhile (fun x => !isPathSeparator x) := by
  induction a with
  | nil => simp [isPathSeparator]
  | cons d a ih =>
    simp only [List.cons_append, List.takeWhile_cons]
    split
    · rw [ih]
    · rfl

theorem dropWhile_append_sep (a rest : List Char) :
    (a ++ '/' :: rest).dropWhile (fun x => !isPathSeparator x)
      = a.dropWhile (fun x => !isPathSeparator x) ++ '/' :: rest := by
  induction a with
  | nil => simp [isPathSeparator]
  | cons d a ih =>
    simp only [List.cons_append, List.dropWhile_cons]
    split
    · rw [ih]
    · rfl

theorem dotCond_append_sep (a rest : List Char) :
    ((a ++ '/' :: rest).isEmpty || ((a ++ '/' :: rest).head?.map isPathSeparator == some true))
      = (a.isEmpty || (a.head?.map isPathSeparator == some true)) := by
  cases a with
  | nil => rfl
  | cons d a => rfl

theorem dotdotCond_append_sep (b : Bool) (a rest : List Char) :
    (b && (a ++ '/' :: rest).head? == some '.' &&
        ((a ++ '/' :: rest).tail.isEmpty
          || ((a ++ '/' :: rest).tail.head?.map isPathSeparator == some true)))
      = (b && a.head? == some '.' &&
        (a.tail.isEmpty || (a.tail.head?.map isPathSeparator == some true))) := by
  rcases a with _ | ⟨d, _ | ⟨d2, a⟩⟩
  · have h : ((some '/' : Option Char) == some '.') = false := by decide
    have h2 : ((none : Option Char) == some '.') = false := by decide
    simp only [List.nil_append, List.head?_cons, List.head?_nil, h, h2, Bool.and_false,
      Bool.false_and]
  · rfl
  · rfl

theorem tail_append_sep (a rest : List Char) (h : (a.head? == some '.') = true) :
    (a ++ '/' :: rest).tail = a.tail ++ '/' :: rest := by
  cases a with
  | nil => exact absurd h (by decide)
  | cons d a => rfl

/-- An iteration of the loop does the same whether the text it reads is
followed by a separator or by the end of the path. -/
theorem cleanStep_append_sep (rooted : Bool) (c : Char) (a rest : List Char)
    (st : CleanState) :
    cleanStep rooted c (a ++ '/' :: rest) st
      = ((cleanStep rooted c a st).1 ++ '/' :: rest, (cleanStep rooted c a st).2) := by
  have htake := takeWhile_append_sep (c :: a) rest
  have hdrop := dropWhile_append_sep (c :: a) rest
  simp only [List.cons_append] at htake hdrop
  unfold cleanStep
  rw [htake, hdrop, dotCond_append_sep, dotdotCond_append_sep]
  split_ifs with h1 h2 h3
  all_goals first
    | rfl
    | (have ht : (a.head? == some '.') = true := by
         simp only [Bool.and_eq_true] at h3
         exact h3.1.2
       rw [tail_append_sep a rest ht])

/-- Reading `a`, a separator and `rest` is reading `a` to its end and going on
from the separator. -/
theorem cleanRun_append_sep (rooted : Bool) (rest : List Char) :
    ∀ (n : Nat) (a : List Char) (st : CleanState), a.length ≤ n →
      cleanRun rooted (a ++ '/' :: rest) st
        = cleanRun rooted ('/' :: rest) (cleanRun rooted a st) := by
  intro n
  induction n with
  | zero =>
    intro a st h
    have ha : a = [] := List.length_eq_zero.mp (Nat.le_zero.mp h)
    subst ha
    rfl
  | succ n ih =>
    intro a st h
    cases a with
    | nil => rfl
    | cons c a =>
      rw [List.cons_append, cleanRun_cons, cleanStep_append_sep, cleanRun_cons rooted c a st]
      have hl := cleanStep_length rooted c a st
      simp only [List.length_cons] at h
      exact ih (cleanStep rooted c a st).1 _ (by omega)

/-! ### The rooted invariant -/

theorem backtrackLoop_length (dotdot : Nat) :
    ∀ (l : List Char) (removed : Char), dotdot ≤ l.length →
      dotdot ≤ (backtrackLoop dotdot removed l).length := by
  intro l
  induction l with
  | nil => intro removed h; simpa [backtrackLoop] using h
  | cons c l ih =>
    intro removed h
    unfold backtrackLoop
    split
    · rename_i hc
      simp only [Bool.and_eq_true, decide_eq_true_eq, List.length_cons] at hc
      exact ih c (by omega)
    · exact h

theorem backtrack_length (dotdot : Nat) (l : List Char) (h : dotdot < l.length) :
    dotdot ≤ (backtrack dotdot l).length := by
  cases l with
  | nil => simp at h
  | cons c l =>
    simp only [List.length_cons] at h
    exact backtrackLoop_length dotdot l c (by omega)

theorem cleanInit_inv (rooted : Bool) : RootedInv rooted (cleanInit rooted) := by
  intro h
  subst h
  exact ⟨rfl, le_rfl⟩

theorem cleanStep_inv (rooted : Bool) (c : Char) (rest : List Char) (st : CleanState)
    (h : RootedInv rooted st) : RootedInv rooted (cleanStep rooted c rest st).2 := by
  intro hr
  obtain ⟨hd, hl⟩ := h hr
  subst hr
  unfold cleanStep
  simp only [Bool.not_true, Bool.false_eq_true, if_false, Bool.false_and, Bool.or_false,
    Bool.true_and]
  split_ifs with h1 h2 h3 h4
  all_goals first
    | exact ⟨hd, hl⟩
    | (refine ⟨hd, ?_⟩
       have := backtrack_length st.dotdot st.out.reverse (by simpa using h4)
       simpa [hd] using this)
    | (refine ⟨hd, ?_⟩
       dsimp only
       simp only [List.length_append]
       omega)

theorem cleanRun_inv (rooted : Bool) :
    ∀ (n : Nat) (x : List Char) (st : CleanState), x.length ≤ n → RootedInv rooted st →
      RootedInv rooted (cleanRun rooted x st) := by
  intro n
  induction n with
  | zero =>
    intro x st h hst
    have hx : x = [] := List.length_eq_zero.mp (Nat.le_zero.mp h)
    subst hx
    exact hst
  | succ n ih =>
    intro x st h hst
    cases x with
    | nil => exact hst
    | cons c rest =>
      rw [cleanRun_cons]
      have hl := cleanStep_length rooted c rest st
      simp only [List.length_cons] at h
      exact ih (cleanStep rooted c rest st).1 _ (by omega) (cleanStep_inv rooted c rest st hst)

theorem prefixState_inv (prefx : List Char) :
    RootedInv (prefixState prefx).1 (prefixState prefx).2 := by
  cases prefx with
  | nil => exact cleanInit_inv true
  | cons c pr => exact cleanRun_inv _ _ _ _ le_rfl (cleanInit_inv _)

/-! ### Clean elements are copied -/

theorem IsElem.ne_sep {c : Char} {e : List Char} (h : IsElem (c :: e)) :
    isPathSeparator c = false :=
  h.2.1 c (List.mem_cons_self c e)

theorem takeWhile_elem {e : List Char} (h : IsElem e) :
    e.takeWhile (fun x => !isPathSeparator x) = e := by
  rw [List.takeWhile_eq_self_iff]
  intro x hx
  simp [h.2.1 x hx]

theorem dropWhile_elem {e : List Char} (h : IsElem e) :
    e.dropWhile (fun x => !isPathSeparator x) = [] := by
  rw [List.dropWhile_eq_nil_iff]
  intro x hx
  simp [h.2.1 x hx]

/-- At the first byte of a clean element that ends the path, the loop takes
its default case: separator if needed, then the element. -/
theorem cleanStep_elem (rooted : Bool) (c : Char) (e : List Char) (st : CleanState)
    (h : IsElem (c :: e)) :
    cleanStep rooted c e st = ([], { st with out := withSep rooted st.out ++ c :: e }) := by
  have hc : isPathSeparator c = false := h.ne_sep
  have h2 : (c == '.' && (e.isEmpty || (e.head?.map isPathSeparator == some true))) = false := by
    rcases e with _ | ⟨d, e⟩
    · have hne : c ≠ '.' := fun hcd => h.2.2.1 (by rw [hcd])
      simp [hne]
    · have hd : isPathSeparator d = false := h.2.1 d (by simp)
      simp [hd]
  have h3 : (c == '.' && e.head? == some '.' &&
      (e.tail.isEmpty || (e.tail.head?.map isPathSeparator == some true))) = false := by
    rcases e with _ | ⟨d, _ | ⟨d2, e⟩⟩
    · simp
    · by_cases hcd : c = '.'
      · by_cases hdd : d = '.'
        · exact absurd (by rw [hcd, hdd]) h.2.2.2
        · simp [hdd]
      · simp [hcd]
    · have hd : isPathSeparator d2 = false := h.2.1 d2 (by simp)
      simp [hd]
  unfold cleanStep
  rw [takeWhile_elem h, dropWhile_elem h]
  simp only [hc, h2, h3, Bool.false_eq_true, if_false]
  rfl

theorem length_le_withSep (rooted : Bool) (out : List Char) :
    out.length ≤ (withSep rooted out).length := by
  unfold withSep
  split <;> simp

theorem withSep_of_long (rooted : Bool) (out : List Char) (h : 2 ≤ out.length) :
    withSep rooted out = out ++ ['/'] := by
  have h1 : out.length ≠ 1 := by omega
  have h0 : out.length ≠ 0 := by omega
  cases rooted <;> simp [withSep, needsSep, h1, h0]

theorem withSep_unrooted (out : List Char) (h : 1 ≤ out.length) :
    withSep false out = out ++ ['/'] := by
  have h0 : out.length ≠ 0 := by omega
  simp [withSep, needsSep, h0]

theorem withSep_after_elem (rooted : Bool) (out : List Char) (c : Char) (e : List Char)
    (h : rooted = true → 1 ≤ out.length) :
    withSep rooted (withSep rooted out ++ c :: e) = withSep rooted out ++ c :: e ++ ['/'] := by
  have hl := length_le_withSep rooted out
  cases rooted with
  | false =>
    exact withSep_unrooted _ (by simp only [List.length_append, List.length_cons]; omega)
  | true =>
    have := h rfl
    exact withSep_of_long _ _ (by simp only [List.length_append, List.length_cons]; omega)

/-- The loop copies a clean path `/e/e1/.../en` to the buffer, element by
element, each after a separator except possibly the first. -/
theorem cleanRun_slashed (rooted : Bool) :
    ∀ (es : List (List Char)) (e : List Char) (st : CleanState), IsElem e →
      (∀ x ∈ es, IsElem x) → (rooted = true → 1 ≤ st.out.length) →
      cleanRun rooted (slashed (e :: es)) st
        = { st with out := withSep rooted st.out ++ e ++ slashed es } := by
  intro es
  induction es with
  | nil =>
    intro e st he _ _
    rcases e with _ | ⟨c, e⟩
    · exact absurd rfl he.1
    · simp only [slashed, List.append_nil]
      rw [cleanRun_sep, cleanRun_cons, cleanStep_elem rooted c e st he]
      rfl
  | cons e2 es ih =>
    intro e st he hes hst
    rcases e with _ | ⟨c, e⟩
    · exact absurd rfl he.1
    · have he2 : IsElem e2 := hes e2 (List.mem_cons_self e2 es)
      have hes2 : ∀ x ∈ es, IsElem x := fun x hx => hes x (List.mem_cons_of_mem e2 hx)
      have hsl : slashed ((c :: e) :: e2 :: es) = '/' :: c :: (e ++ '/' :: (e2 ++ slashed es)) := rfl
      rw [hsl, cleanRun_sep, cleanRun_cons, cleanStep_append_sep, cleanStep_elem rooted c e st he]
      have hsl2 : ([] : List Char) ++ '/' :: (e2 ++ slashed es) = slashed (e2 :: es) := rfl
      simp only []
      rw [hsl2, ih e2 _ he2 hes2]
      · simp only [withSep_after_elem rooted st.out c e hst]
        simp [slashed]
      · intro _
        simp only [List.length_append, List.length_cons]
        omega

/-! ### The thumbnail key of a rooted request path -/

theorem Clean_cons (c : Char) (rest : List Char) :
    Clean (c :: rest)
      = cleanFinish (cleanRun (isPathSeparator c) (c :: rest)
          (cleanInit (isPathSeparator c))).out := by
  by_cases hc : c = '/'
  · subst hc
    rw [cleanRun_sep]
    rfl
  · have hs : isPathSeparator c = false := by simp [isPathSeparator, hc]
    simp only [Clean, hs, cleanFinish, cleanRun, cleanInit, Bool.false_eq_true, if_false]

/-- The key of a request path that starts with a slash: the cleaning loop,
having read the prefix, reads the rest of the path. -/
theorem thumbPath_rooted (prefx q : List Char) :
    thumbPath prefx ('/' :: q)
      = cleanFinish (cleanRun (prefixState prefx).1 q (prefixState prefx).2).out := by
  cases prefx with
  | nil =>
    have h : thumbPath [] ('/' :: q) = Clean ('/' :: q) := by
      simp [thumbPath, Join, stringsJoin]
    rw [h, Clean_cons, cleanRun_sep]
    rfl
  | cons c pr =>
    have h : thumbPath (c :: pr) ('/' :: q) = Clean (c :: (pr ++ '/' :: '/' :: q)) := by
      simp [thumbPath, Join, stringsJoin]
    have happ : c :: (pr ++ '/' :: '/' :: q) = (c :: pr) ++ '/' :: ('/' :: q) := rfl
    rw [h, Clean_cons, happ, cleanRun_append_sep _ _ _ _ _ le_rfl, cleanRun_sep, cleanRun_sep]
    rfl

theorem thumbPath_root (prefx : List Char) :
    thumbPath prefx ['/'] = cleanFinish (prefixState prefx).2.out := by
  rw [thumbPath_rooted]
  rfl

theorem thumbPath_slashed (prefx : List Char) (e : List Char) (es : List (List Char))
    (he : IsElem e) (hes : ∀ x ∈ es, IsElem x) :
    thumbPath prefx (slashed (e :: es))
      = withSep (prefixState prefx).1 (prefixState prefx).2.out ++ e ++ slashed es := by
  have hsl : slashed (e :: es) = '/' :: (e ++ slashed es) := rfl
  rw [hsl, thumbPath_rooted, ← cleanRun_sep, ← hsl,
    cleanRun_slashed _ es e _ he hes (fun h => (prefixState_inv prefx h).2)]
  rcases e with _ | ⟨c, e⟩
  · exact absurd rfl he.1
  · simp [cleanFinish]

theorem IsCleanPath.cases {p : List Char} (h : IsCleanPath p) :
    ∃ e es, IsElem e ∧ (∀ x ∈ es, IsElem x) ∧ p = slashed (e :: es) := by
  obtain ⟨es, hne, hes, hp⟩ := h
  cases es with
  | nil => exact absurd rfl hne
  | cons e es =>
    exact ⟨e, es, hes e (List.mem_cons_self e es),
      fun x hx => hes x (List.mem_cons_of_mem e hx), hp⟩

theorem thumbPath_root_ne_slashed (prefx : List Char) (e : List Char)
    (es : List (List Char)) (he : IsElem e) (hes : ∀ x ∈ es, IsElem x) :
    thumbPath prefx ['/'] ≠ thumbPath prefx (slashed (e :: es)) := by
  rw [thumbPath_root, thumbPath_slashed prefx e es he hes]
  have hinv := prefixState_inv prefx
  generalize (prefixState prefx).1 = r at *
  generalize (prefixState prefx).2 = st at *
  intro heq
  have hlen := congrArg List.length heq
  have hw := length_le_withSep r st.out
  have hepos : 1 ≤ e.length := by
    rcases e with _ | ⟨c, e⟩
    · exact absurd rfl he.1
    · simp
  simp only [List.length_append] at hlen
  by_cases hout : st.out = []
  · have hr : r = false := by
      cases r with
      | false => rfl
      | true =>
        have := (hinv rfl).2
        rw [hout] at this
        simp at this
    subst hr
    have hws : withSep false st.out = [] := by simp [withSep, needsSep, hout]
    rw [hws, hout] at heq
    simp only [cleanFinish, List.length_nil, beq_self_eq_true, if_true, List.nil_append] at heq
    rcases e with _ | ⟨c, e⟩
    · exact absurd rfl he.1
    · simp only [List.cons_append, List.cons.injEq] at heq
      obtain ⟨hc, ht⟩ := heq
      have hnil : e = [] := (List.append_eq_nil.mp ht.symm).1
      exact he.2.2.1 (by rw [← hc, hnil])
  · have hpos : st.out.length ≠ 0 := fun h => hout (List.length_eq_zero.mp h)
    have hfin : cleanFinish st.out = st.out := by simp [cleanFinish, hpos]
    rw [hfin] at hlen
    omega

/-- C4, as stated, fails: a request path and the same path with a trailing
slash are different strings with the same thumbnail key. -/
theorem thumbPath_trailing_slash_collision :
    "/photos/a.jpg".toList ≠ "/photos/a.jpg/".toList
      ∧ thumbPath "thumbs".toList "/photos/a.jpg".toList
        = thumbPath "thumbs".toList "/photos/a.jpg/".toList := by
  decide

/-- C4, amended: under any configured prefix, two different request paths
that are both in cleaned form (the root `/`, or `/e1/.../en` without empty,
`.` or `..` elements and without a trailing slash) have different thumbnail
keys. -/
theorem thumbPath_injective_on_clean (prefx p1 p2 : List Char)
    (h1 : IsCleanRequestPath p1) (h2 : IsCleanRequestPath p2) (hne : p1 ≠ p2) :
    thumbPath prefx p1 ≠ thumbPath prefx p2 := by
  rcases h1 with h1 | h1 <;> rcases h2 with h2 | h2
  · exact absurd (h1.trans h2.symm) hne
  · obtain ⟨e, es, he, hes, hp⟩ := h2.cases
    rw [h1, hp]
    exact thumbPath_root_ne_slashed prefx e es he hes
  · obtain ⟨e, es, he, hes, hp⟩ := h1.cases
    rw [h2, hp]
    exact fun h => thumbPath_root_ne_slashed prefx e es he hes h.symm
  · obtain ⟨e1, es1, he1, hes1, hp1⟩ := h1.cases
    obtain ⟨e2, es2, he2, hes2, hp2⟩ := h2.cases
    rw [hp1, hp2, thumbPath_slashed prefx e1 es1 he1 hes1,
      thumbPath_slashed prefx e2 es2 he2 hes2]
    intro heq
    rw [List.append_assoc, List.append_assoc] at heq
    have hbody := List.append_cancel_left heq
    apply hne
    rw [hp1, hp2]
    show '/' :: (e1 ++ slashed es1) = '/' :: (e2 ++ slashed es2)
    rw [hbody]

/-- Witness for the amended C4: two originals under `/photos`. -/
theorem thumbPath_injective_on_clean_witness :
    thumbPath "thumbs".toList "/photos/a.jpg".toList
      ≠ thumbPath "thumbs".toList "/photos/b.jpg".toList :=
  thumbPath_injective_on_clean "thumbs".toList "/photos/a.jpg".toList "/photos/b.jpg".toList
    (Or.inr ⟨["photos".toList, "a.jpg".toList], by decide, by decide, by decide⟩)
    (Or.inr ⟨["photos".toList, "b.jpg".toList], by decide, by decide, by decide⟩)
    (by decide)

theorem prefixState_clean (prefx : List Char) (e : List Char) (es : List (List Char))
    (he : IsElem e) (hes : ∀ x ∈ es, IsElem x)
    (hq : prefx = slashed (e :: es) ∨ prefx = (slashed (e :: es)).tail) :
    withSep (prefixState prefx).1 (prefixState prefx).2.out = prefx ++ ['/'] := by
  rcases e with _ | ⟨c, e⟩
  · exact absurd rfl he.1
  have hc : isPathSeparator c = false := he.ne_sep
  rcases hq with hq | hq
  · have hst : prefixState prefx
        = (true, cleanRun true (slashed ((c :: e) :: es)) (cleanInit true)) := by
      rw [hq]; rfl
    rw [hst, cleanRun_slashed true es (c :: e) (cleanInit true) he hes
      (fun _ => (le_refl 1 : 1 ≤ (cleanInit true).out.length))]
    have hw : withSep true (cleanInit true).out = ['/'] := rfl
    simp only [hw]
    rw [withSep_of_long _ _ (by simp), hq]
    rfl
  · have hq2 : prefx = c :: (e ++ slashed es) := hq
    have hst : prefixState prefx
        = (false, cleanRun false (slashed ((c :: e) :: es)) (cleanInit false)) := by
      rw [hq2]
      show (isPathSeparator c, cleanRun (isPathSeparator c) (c :: (e ++ slashed es))
        (cleanInit (isPathSeparator c))) = _
      rw [hc]
      have hsl : slashed ((c :: e) :: es) = '/' :: c :: (e ++ slashed es) := rfl
      rw [hsl, cleanRun_sep]
    rw [hst, cleanRun_slashed false es (c :: e) (cleanInit false) he hes
      (fun h => absurd h (by decide))]
    have hw : withSep false (cleanInit false).out = [] := rfl
    simp only [hw]
    rw [withSep_unrooted _ (by simp), hq2]
    rfl

/-- C5, as stated, fails: for a request path with a trailing slash the key is
not the prefix followed by the path; the trailing slash is removed. -/
theorem thumbPath_not_concatenation :
    thumbPath "thumbs".toList "/photos/".toList ≠ "thumbs".toList ++ "/photos/".toList
      ∧ thumbPath "thumbs".toList "/photos/".toList = "thumbs/photos".toList := by
  decide

/-- C5, amended: the thumbnail key is the prefix followed immediately by the
request path whenever the prefix is empty or a clean path without trailing
slash and the request path is a clean rooted path other than `/`. -/
theorem thumbPath_eq_append (prefx p : List Char) (hq : IsCleanPrefix prefx)
    (hp : IsCleanPath p) : thumbPath prefx p = prefx ++ p := by
  obtain ⟨e, es, he, hes, hpe⟩ := hp.cases
  rw [hpe, thumbPath_slashed prefx e es he hes]
  rcases hq with hq | ⟨qs, hne, hqs, hq⟩
  · subst hq
    rfl
  · cases qs with
    | nil => exact absurd rfl hne
    | cons q qs =>
      rw [prefixState_clean prefx q qs (hqs q (List.mem_cons_self q qs))
        (fun x hx => hqs x (List.mem_cons_of_mem q hx)) hq]
      simp [slashed]

/-- Witness for the amended C5: the prefix `thumbs` and `/photos/a.jpg`. -/
theorem thumbPath_eq_append_witness :
    thumbPath "thumbs".toList "/photos/a.jpg".toList
      = "thumbs".toList ++ "/photos/a.jpg".toList :=
  thumbPath_eq_append "thumbs".toList "/photos/a.jpg".toList
    (Or.inr ⟨["thumbs".toList], by decide, by decide, Or.inr (by decide)⟩)
    ⟨["photos".toList, "a.jpg".toList], by decide, by decide, by decide⟩

/-! ## The handler: what each branch does -/

section HandlerTheorems

variable {σ S O Q : Type}

theorem NewRGBA_Rect {r : Rectangle} {dst : RGBA} (h : NewRGBA r = some dst) :
    dst.Rect = r := by
  simp only [NewRGBA] at h
  split at h
  · exact absurd h (by simp)
  · split at h
    · exact absurd h (by simp)
    · simp only [Option.some.injEq] at h
      rw [← h]

theorem NewRGBA_Rect_setPix {r : Rectangle} {dst : RGBA} (h : NewRGBA r = some dst)
    (pix : Bytes) (stride : Int) :
    ({ Pix := pix, Stride := stride, Rect := dst.Rect } : RGBA).Rect = r :=
  show dst.Rect = r from NewRGBA_Rect h

theorem wrapInt64_of_range {z : Int} (h1 : -2 ^ 63 ≤ z) (h2 : z < 2 ^ 63) :
    wrapInt64 z = z := by
  unfold wrapInt64
  omega

/-- The two panics of `image.NewRGBA`: a height of `-2^63` makes `Dy` wrap to
a negative number, and a 2^50-pixel row is more than `make` accepts. -/
theorem NewRGBA_panics :
    NewRGBA (Rect 0 0 0 (-2 ^ 63)) = none ∧ NewRGBA (Rect 0 0 (2 ^ 50) 1) = none := by
  decide

theorem Rect_of_pos {x y : Int} (hx : 0 < x) (hy : 0 < y) :
    Rect 0 0 x y = { Min := { X := 0, Y := 0 }, Max := { X := x, Y := y } } := by
  simp [Rect, not_lt.mpr hx.le, not_lt.mpr hy.le]

/-- C1. Cache-miss success path: when the existence check on the thumbnail
key answers "NoSuchKey" and fetch, decode, buffer allocation, resize, option
construction and encode succeed with bytes `b`, the handler makes exactly the
calls below: one store write, to the thumbnail key derived from the path,
carrying `b`, the size `len(b)` and the content type "image/webp", and one
response write, of `b`. The store afterwards is the store that write
returns, and the response bytes are `b`. This holds whatever error the store
write returns. -/
theorem miss_success_single_put (st : Store σ) (cd : Codec S O Q) (config : Config Q)
    (s : σ) (path : List Char) (object : Object) (srcImage : S) (dst : RGBA)
    (options : O) (b : Bytes)
    (hstat : st.statObject s config.Bucket (thumbPath config.ThumbPath path)
      = some (.errorResponse "NoSuchKey"))
    (hget : st.getObject s config.Bucket path = .ok object)
    (hdec : cd.decode object = .ok srcImage)
    (hnew : NewRGBA (Rect 0 0 config.X config.Y) = some dst)
    (hthumb : (cd.thumbnail dst srcImage).2 = none)
    (hopt : cd.newLossyEncoderOptions config.Quality = .ok options)
    (henc : cd.encode { dst with Pix := (cd.thumbnail dst srcImage).1 } options = .ok b) :
    (handler st cd config s path).trace.filter Event.isPutObject
        = [.putObject config.Bucket (thumbPath config.ThumbPath path) b b.length "image/webp"]
      ∧ (handler st cd config s path).trace.filter (fun e => e matches .goWrite _)
        = [.goWrite b]
      ∧ (handler st cd config s path).response = b
      ∧ (handler st cd config s path).store
        = (st.putObject s config.Bucket (thumbPath config.ThumbPath path) b b.length
            "image/webp").1
      ∧ (handler st cd config s path).trace
        = [.statObject config.Bucket (thumbPath config.ThumbPath path),
            .getObject config.Bucket path, .decode object,
            .newRGBA (Rect 0 0 config.X config.Y), .thumbnail dst srcImage,
            .newLossyEncoderOptions config.Quality,
            .encode { dst with Pix := (cd.thumbnail dst srcImage).1 } options,
            .goWrite b,
            .putObject config.Bucket (thumbPath config.ThumbPath path) b b.length "image/webp"]
          ++ (match (st.putObject s config.Bucket (thumbPath config.ThumbPath path) b b.length
                "image/webp").2 with
              | some e => [.log e]
              | none => [])
          ++ [.close object] := by
  unfold thumbPath at hstat
  simp only [handler, hstat, missBranch, hget, hdec, hnew, hthumb, hopt, henc, if_true]
  split <;> simp_all [Event.isPutObject, thumbPath]

/-- Witness for C1: the original `/photos/a.jpg` in a bucket without
thumbnails, target 2×1, quality 80. Afterwards the bucket holds the nine
encoded bytes at `thumbs/photos/a.jpg`. -/
theorem miss_success_single_put_witness :
    ((handler mapStore demoCodec demoConfig demoBucket "/photos/a.jpg".toList).trace.filter
        Event.isPutObject
        = [.putObject "images" "thumbs/photos/a.jpg".toList [80, 7, 7, 7, 7, 7, 7, 7, 7] 9
            "image/webp"]
      ∧ (handler mapStore demoCodec demoConfig demoBucket "/photos/a.jpg".toList).trace.filter
          (fun e => e matches .goWrite _)
        = [.goWrite [80, 7, 7, 7, 7, 7, 7, 7, 7]]
      ∧ (handler mapStore demoCodec demoConfig demoBucket "/photos/a.jpg".toList).response
        = [80, 7, 7, 7, 7, 7, 7, 7, 7]
      ∧ (handler mapStore demoCodec demoConfig demoBucket "/photos/a.jpg".toList).store
        = (mapStore.putObject demoBucket "images" "thumbs/photos/a.jpg".toList
            [80, 7, 7, 7, 7, 7, 7, 7, 7] 9 "image/webp").1
      ∧ (handler mapStore demoCodec demoConfig demoBucket "/photos/a.jpg".toList).trace
        = [.statObject "images" "thumbs/photos/a.jpg".toList,
            .getObject "images" "/photos/a.jpg".toList,
            .decode { data := [7, 8, 9], readErr := none },
            .newRGBA (Rect 0 0 2 1),
            .thumbnail demoDst [7, 8, 9],
            .newLossyEncoderOptions 80,
            .encode { demoDst with Pix := [7, 7, 7, 7, 7, 7, 7, 7] } 80,
            .goWrite [80, 7, 7, 7, 7, 7, 7, 7, 7],
            .putObject "images" "thumbs/photos/a.jpg".toList [80, 7, 7, 7, 7, 7, 7, 7, 7] 9
              "image/webp"]
          ++ []
          ++ [.close { data := [7, 8, 9], readErr := none }])
    ∧ demoBucket "thumbs/photos/a.jpg".toList = none
    ∧ (handler mapStore demoCodec demoConfig demoBucket "/photos/a.jpg".toList).store
        "thumbs/photos/a.jpg".toList = some [80, 7, 7, 7, 7, 7, 7, 7, 7] :=
  ⟨miss_success_single_put mapStore demoCodec demoConfig demoBucket "/photos/a.jpg".toList
      { data := [7, 8, 9], readErr := none } [7, 8, 9] demoDst 80
      [80, 7, 7, 7, 7, 7, 7, 7, 7]
      (by decide) rfl rfl (by decide) (by decide) rfl rfl,
    by decide, by decide⟩

/-- C2, as stated, fails: with the empty prefix the thumbnail key of
`/photos/a.jpg` is `/photos/a.jpg` itself, so in a bucket that holds the
original the existence check succeeds and the one get the handler makes is
the fetch of the origin object at the request path, whose bytes are served as
they are. -/
theorem hit_fetches_origin_when_key_is_path :
    thumbPath emptyPrefixConfig.ThumbPath "/photos/a.jpg".toList = "/photos/a.jpg".toList
      ∧ demoBucket "/photos/a.jpg".toList = some [7, 8, 9]
      ∧ mapStore.statObject demoBucket emptyPrefixConfig.Bucket
          (thumbPath emptyPrefixConfig.ThumbPath "/photos/a.jpg".toList) = none
      ∧ Event.getObject emptyPrefixConfig.Bucket "/photos/a.jpg".toList
          ∈ (handler mapStore demoCodec emptyPrefixConfig demoBucket
              "/photos/a.jpg".toList).trace
      ∧ (handler mapStore demoCodec emptyPrefixConfig demoBucket
          "/photos/a.jpg".toList).response = [7, 8, 9] := by
  decide

/-- C2, amended. Cache-hit short-circuit: when the existence check on the
thumbnail key succeeds, the store is left as it was; no decode, buffer
allocation, resize, encode, response goroutine or store write happens; the
only store call after the check is one get, at the thumbnail key, so the
origin object at the request path is not fetched whenever the thumbnail key
differs from the request path. If the get returns an object, the response
holds exactly the bytes that object yields; if it fails, none. -/
theorem hit_short_circuit (st : Store σ) (cd : Codec S O Q) (config : Config Q)
    (s : σ) (path : List Char)
    (hstat : st.statObject s config.Bucket (thumbPath config.ThumbPath path) = none) :
    (handler st cd config s path).store = s
      ∧ (handler st cd config s path).panicked = false
      ∧ (handler st cd config s path).trace.filter Event.isGeneration = []
      ∧ (handler st cd config s path).trace.filter Event.isGetObject
        = [.getObject config.Bucket (thumbPath config.ThumbPath path)]
      ∧ (thumbPath config.ThumbPath path ≠ path →
          ∀ bucket, Event.getObject bucket path ∉ (handler st cd config s path).trace)
      ∧ (∀ thumb, st.getObject s config.Bucket (thumbPath config.ThumbPath path) = .ok thumb →
          (handler st cd config s path).response = thumb.data
          ∧ (handler st cd config s path).trace
            = [.statObject config.Bucket (thumbPath config.ThumbPath path),
                .getObject config.Bucket (thumbPath config.ThumbPath path),
                .ioCopy thumb]
              ++ (match thumb.readErr with
                  | some e => [.log e]
                  | none => []))
      ∧ (∀ e, st.getObject s config.Bucket (thumbPath config.ThumbPath path) = .error e →
          (handler st cd config s path).response = []
          ∧ (handler st cd config s path).trace
            = [.statObject config.Bucket (thumbPath config.ThumbPath path),
                .getObject config.Bucket (thumbPath config.ThumbPath path),
                .log e]) := by
  unfold thumbPath at *
  simp only [handler, hstat, hitBranch]
  refine ⟨?_, ?_, ?_, ?_, ?_, ?_, ?_⟩
  · split
    · rfl
    · split <;> rfl
  · split
    · rfl
    · split <;> rfl
  · split
    · rfl
    · split <;> rfl
  · split
    · rfl
    · split <;> rfl
  · intro hne bucket
    have hne2 : ¬ path = Join [config.ThumbPath, path] := fun h => hne h.symm
    split
    · simp [hne2]
    · split <;> simp [hne2]
  · intro thumb h
    simp only [h]
    split <;> simp_all
  · intro e h
    simp [h]

/-- Witness for the amended C2: a bucket that already holds
`thumbs/photos/a.jpg`; the original at `/photos/a.jpg` is not fetched. -/
theorem hit_short_circuit_witness :
    (∀ bucket, Event.getObject bucket "/photos/a.jpg".toList
        ∉ (handler mapStore demoCodec demoConfig
            (fun k => if k = "thumbs/photos/a.jpg".toList then some [1, 2, 3] else demoBucket k)
            "/photos/a.jpg".toList).trace)
      ∧ (handler mapStore demoCodec demoConfig
        (fun k => if k = "thumbs/photos/a.jpg".toList then some [1, 2, 3] else demoBucket k)
        "/photos/a.jpg".toList).response = [1, 2, 3]
      ∧ (handler mapStore demoCodec demoConfig
        (fun k => if k = "thumbs/photos/a.jpg".toList then some [1, 2, 3] else demoBucket k)
        "/photos/a.jpg".toList).trace
        = [.statObject "images" "thumbs/photos/a.jpg".toList,
            .getObject "images" "thumbs/photos/a.jpg".toList,
            .ioCopy { data := [1, 2, 3], readErr := none }] :=
  ⟨(hit_short_circuit mapStore demoCodec demoConfig
      (fun k => if k = "thumbs/photos/a.jpg".toList then some [1, 2, 3] else demoBucket k)
      "/photos/a.jpg".toList (by decide)).2.2.2.2.1 (by decide),
    (hit_short_circuit mapStore demoCodec demoConfig
      (fun k => if k = "thumbs/photos/a.jpg".toList then some [1, 2, 3] else demoBucket k)
      "/photos/a.jpg".toList (by decide)).2.2.2.2.2.1
      { data := [1, 2, 3], readErr := none } rfl⟩

/-- C6. Existence-check classification: an error response with code
"NoSuchKey" sends the handler down the miss branch, whose first call is the
get of the origin at the request path; any other error (another code, or
another kind of error) ends the request after logging it, with no further
call, no response bytes and the store untouched. -/
theorem stat_error_classification (st : Store σ) (cd : Codec S O Q) (config : Config Q)
    (s : σ) (path : List Char) (err : Err)
    (hstat : st.statObject s config.Bucket (thumbPath config.ThumbPath path) = some err) :
    (err = .errorResponse "NoSuchKey" →
        (handler st cd config s path).trace.take 2
          = [.statObject config.Bucket (thumbPath config.ThumbPath path),
              .getObject config.Bucket path])
      ∧ (err ≠ .errorResponse "NoSuchKey" →
        (handler st cd config s path).trace
            = [.statObject config.Bucket (thumbPath config.ThumbPath path), .log err]
          ∧ (handler st cd config s path).response = []
          ∧ (handler st cd config s path).store = s
          ∧ (handler st cd config s path).panicked = false) := by
  unfold thumbPath at *
  constructor
  · intro he
    subst he
    simp only [handler, hstat, missBranch, if_true]
    cases st.getObject s config.Bucket path with
    | error e => rfl
    | ok object =>
      simp only []
      repeat' split
      all_goals rfl
  · intro hne
    cases err with
    | errorResponse code =>
      have hc : code ≠ "NoSuchKey" := fun h => hne (by rw [h])
      simp [handler, hstat, hc]
    | other msg => simp [handler, hstat]

/-- Witness for C6: one store answers "NoSuchKey", one "AccessDenied". -/
theorem stat_error_classification_witness :
    (handler (faultyStatStore (.errorResponse "NoSuchKey")) demoCodec demoConfig ()
        "/photos/a.jpg".toList).trace.take 2
        = [.statObject "images" "thumbs/photos/a.jpg".toList,
            .getObject "images" "/photos/a.jpg".toList]
      ∧ ((handler (faultyStatStore (.errorResponse "AccessDenied")) demoCodec demoConfig ()
            "/photos/a.jpg".toList).trace
          = [.statObject "images" "thumbs/photos/a.jpg".toList,
              .log (.errorResponse "AccessDenied")]
        ∧ (handler (faultyStatStore (.errorResponse "AccessDenied")) demoCodec demoConfig ()
            "/photos/a.jpg".toList).response = []
        ∧ (handler (faultyStatStore (.errorResponse "AccessDenied")) demoCodec demoConfig ()
            "/photos/a.jpg".toList).store = ()
        ∧ (handler (faultyStatStore (.errorResponse "AccessDenied")) demoCodec demoConfig ()
            "/photos/a.jpg".toList).panicked = false) :=
  ⟨(stat_error_classification (faultyStatStore (.errorResponse "NoSuchKey")) demoCodec
      demoConfig () "/photos/a.jpg".toList (.errorResponse "NoSuchKey") (by decide)).1 rfl,
    (stat_error_classification (faultyStatStore (.errorResponse "AccessDenied")) demoCodec
      demoConfig () "/photos/a.jpg".toList (.errorResponse "AccessDenied") (by decide)).2
      (by decide)⟩

/-- C7. Failure before the store step: on a cache miss, when the origin get,
the decode, the buffer allocation, the resize, the construction of the
encoder options or the encode fails, the trace stops at the failing call
(followed only by the log line and the deferred close of the origin object),
so no later step runs and no store write is issued; no bytes go to the
response and the store is unchanged. -/
theorem miss_failure_writes_nothing (st : Store σ) (cd : Codec S O Q) (config : Config Q)
    (s : σ) (path : List Char)
    (hstat : st.statObject s config.Bucket (thumbPath config.ThumbPath path)
      = some (.errorResponse "NoSuchKey")) :
    (∀ e, st.getObject s config.Bucket path = .error e →
        (handler st cd config s path).trace
            = [.statObject config.Bucket (thumbPath config.ThumbPath path),
                .getObject config.Bucket path, .log e]
          ∧ (handler st cd config s path).response = []
          ∧ (handler st cd config s path).store = s)
      ∧ (∀ object, st.getObject s config.Bucket path = .ok object →
        (∀ e, cd.decode object = .error e →
          (handler st cd config s path).trace
              = [.statObject config.Bucket (thumbPath config.ThumbPath path),
                  .getObject config.Bucket path, .decode object, .log e, .close object]
            ∧ (handler st cd config s path).response = []
            ∧ (handler st cd config s path).store = s)
        ∧ (∀ srcImage, cd.decode object = .ok srcImage →
          (NewRGBA (Rect 0 0 config.X config.Y) = none →
            (handler st cd config s path).trace
                = [.statObject config.Bucket (thumbPath config.ThumbPath path),
                    .getObject config.Bucket path, .decode object,
                    .newRGBA (Rect 0 0 config.X config.Y), .close object]
              ∧ (handler st cd config s path).response = []
              ∧ (handler st cd config s path).store = s)
          ∧ (∀ dst, NewRGBA (Rect 0 0 config.X config.Y) = some dst →
            (∀ e, (cd.thumbnail dst srcImage).2 = some e →
              (handler st cd config s path).trace
                  = [.statObject config.Bucket (thumbPath config.ThumbPath path),
                      .getObject config.Bucket path, .decode object,
                      .newRGBA (Rect 0 0 config.X config.Y), .thumbnail dst srcImage,
                      .log e, .close object]
                ∧ (handler st cd config s path).response = []
                ∧ (handler st cd config s path).store = s)
            ∧ ((cd.thumbnail dst srcImage).2 = none →
              (∀ e, cd.newLossyEncoderOptions config.Quality = .error e →
                (handler st cd config s path).trace
                    = [.statObject config.Bucket (thumbPath config.ThumbPath path),
                        .getObject config.Bucket path, .decode object,
                        .newRGBA (Rect 0 0 config.X config.Y), .thumbnail dst srcImage,
                        .newLossyEncoderOptions config.Quality, .log e, .close object]
                  ∧ (handler st cd config s path).response = []
                  ∧ (handler st cd config s path).store = s)
              ∧ (∀ options e, cd.newLossyEncoderOptions config.Quality = .ok options →
                cd.encode { dst with Pix := (cd.thumbnail dst srcImage).1 } options = .error e →
                (handler st cd config s path).trace
                    = [.statObject config.Bucket (thumbPath config.ThumbPath path),
                        .getObject config.Bucket path, .decode object,
                        .newRGBA (Rect 0 0 config.X config.Y), .thumbnail dst srcImage,
                        .newLossyEncoderOptions config.Quality,
                        .encode { dst with Pix := (cd.thumbnail dst srcImage).1 } options,
                        .log e, .close object]
                  ∧ (handler st cd config s path).response = []
                  ∧ (handler st cd config s path).store = s))))) := by
  unfold thumbPath at *
  refine ⟨?_, ?_⟩
  · intro e hget
    simp [handler, hstat, missBranch, hget]
  · intro object hget
    refine ⟨?_, ?_⟩
    · intro e hdec
      simp [handler, hstat, missBranch, hget, hdec]
    · intro srcImage hdec
      refine ⟨?_, ?_⟩
      · intro hnew
        simp [handler, hstat, missBranch, hget, hdec, hnew]
      · intro dst hnew
        refine ⟨?_, ?_⟩
        · intro e hth
          simp [handler, hstat, missBranch, hget, hdec, hnew, hth]
        · intro hth
          refine ⟨?_, ?_⟩
          · intro e hopt
            simp [handler, hstat, missBranch, hget, hdec, hnew, hth, hopt]
          · intro options e hopt henc
            simp [handler, hstat, missBranch, hget, hdec, hnew, hth, hopt, henc]

/-- Witness for C7: the object at `/photos/corrupt.bin` is not a decodable
image (the decode case), and `/photos/missing.jpg` is absent, which the lazy
get reports when the decoder reads it. -/
theorem miss_failure_writes_nothing_witness :
    ((handler mapStore demoCodec demoConfig demoBucket "/photos/corrupt.bin".toList).trace
        = [.statObject "images" "thumbs/photos/corrupt.bin".toList,
            .getObject "images" "/photos/corrupt.bin".toList,
            .decode { data := [], readErr := none },
            .log (.other "image: unknown format"),
            .close { data := [], readErr := none }]
      ∧ (handler mapStore demoCodec demoConfig demoBucket "/photos/corrupt.bin".toList).response
        = []
      ∧ (handler mapStore demoCodec demoConfig demoBucket "/photos/corrupt.bin".toList).store
        = demoBucket)
    ∧ ((handler mapStore demoCodec demoConfig demoBucket "/photos/missing.jpg".toList).trace
        = [.statObject "images" "thumbs/photos/missing.jpg".toList,
            .getObject "images" "/photos/missing.jpg".toList,
            .decode { data := [], readErr := some (.errorResponse "NoSuchKey") },
            .log (.errorResponse "NoSuchKey"),
            .close { data := [], readErr := some (.errorResponse "NoSuchKey") }]
      ∧ (handler mapStore demoCodec demoConfig demoBucket "/photos/missing.jpg".toList).response
        = []
      ∧ (handler mapStore demoCodec demoConfig demoBucket "/photos/missing.jpg".toList).store
        = demoBucket) :=
  ⟨((miss_failure_writes_nothing mapStore demoCodec demoConfig demoBucket
      "/photos/corrupt.bin".toList (by decide)).2
      { data := [], readErr := none } rfl).1 (.other "image: unknown format") rfl,
   ((miss_failure_writes_nothing mapStore demoCodec demoConfig demoBucket
      "/photos/missing.jpg".toList (by decide)).2
      { data := [], readErr := some (.errorResponse "NoSuchKey") } rfl).1
      (.errorResponse "NoSuchKey") rfl⟩

/-- C8, as stated, fails: with a store that refuses the write, every earlier
step succeeding, the handler has handed the nine thumbnail bytes to the
response before `PutObject` returned its error. -/
theorem put_failure_response_not_empty :
    readOnlyStore.statObject () demoConfig.Bucket
        (thumbPath demoConfig.ThumbPath "/photos/a.jpg".toList)
        = some (.errorResponse "NoSuchKey")
      ∧ (readOnlyStore.putObject () demoConfig.Bucket
          (thumbPath demoConfig.ThumbPath "/photos/a.jpg".toList)
          [80, 7, 7, 7, 7, 7, 7, 7, 7] 9 "image/webp").2 = some (.errorResponse "AccessDenied")
      ∧ (handler readOnlyStore demoCodec demoConfig () "/photos/a.jpg".toList).trace.drop 7
        = [.goWrite [80, 7, 7, 7, 7, 7, 7, 7, 7],
            .putObject "images" "thumbs/photos/a.jpg".toList [80, 7, 7, 7, 7, 7, 7, 7, 7] 9
              "image/webp",
            .log (.errorResponse "AccessDenied"),
            .close { data := [7, 8, 9], readErr := none }]
      ∧ (handler readOnlyStore demoCodec demoConfig () "/photos/a.jpg".toList).response
        = [80, 7, 7, 7, 7, 7, 7, 7, 7]
      ∧ (handler readOnlyStore demoCodec demoConfig () "/photos/a.jpg".toList).response ≠ [] := by
  decide

/-- C8, amended: on a cache miss where fetch, decode, resize and encode succeed
with bytes `b` and the store write fails with `e`, the response write of `b`
was issued before the store write; after the failure the handler only logs
`e` and closes the origin object, and the response bytes are `b`. -/
theorem put_failure_after_response (st : Store σ) (cd : Codec S O Q) (config : Config Q)
    (s : σ) (path : List Char) (object : Object) (srcImage : S) (dst : RGBA)
    (options : O) (b : Bytes) (e : Err)
    (hstat : st.statObject s config.Bucket (thumbPath config.ThumbPath path)
      = some (.errorResponse "NoSuchKey"))
    (hget : st.getObject s config.Bucket path = .ok object)
    (hdec : cd.decode object = .ok srcImage)
    (hnew : NewRGBA (Rect 0 0 config.X config.Y) = some dst)
    (hthumb : (cd.thumbnail dst srcImage).2 = none)
    (hopt : cd.newLossyEncoderOptions config.Quality = .ok options)
    (henc : cd.encode { dst with Pix := (cd.thumbnail dst srcImage).1 } options = .ok b)
    (hput : (st.putObject s config.Bucket (thumbPath config.ThumbPath path) b b.length
      "image/webp").2 = some e) :
    (handler st cd config s path).trace
        = [.statObject config.Bucket (thumbPath config.ThumbPath path),
            .getObject config.Bucket path, .decode object,
            .newRGBA (Rect 0 0 config.X config.Y), .thumbnail dst srcImage,
            .newLossyEncoderOptions config.Quality,
            .encode { dst with Pix := (cd.thumbnail dst srcImage).1 } options,
            .goWrite b,
            .putObject config.Bucket (thumbPath config.ThumbPath path) b b.length "image/webp",
            .log e, .close object]
      ∧ (handler st cd config s path).response = b := by
  unfold thumbPath at *
  simp [handler, hstat, missBranch, hget, hdec, hnew, hthumb, hopt, henc, hput]

/-- Witness for the amended C8: the store that refuses writes. -/
theorem put_failure_after_response_witness :
    (handler readOnlyStore demoCodec demoConfig () "/photos/a.jpg".toList).trace
        = [.statObject "images" "thumbs/photos/a.jpg".toList,
            .getObject "images" "/photos/a.jpg".toList,
            .decode { data := [7, 8, 9], readErr := none },
            .newRGBA (Rect 0 0 2 1),
            .thumbnail demoDst [7, 8, 9],
            .newLossyEncoderOptions 80,
            .encode { demoDst with Pix := [7, 7, 7, 7, 7, 7, 7, 7] } 80,
            .goWrite [80, 7, 7, 7, 7, 7, 7, 7, 7],
            .putObject "images" "thumbs/photos/a.jpg".toList [80, 7, 7, 7, 7, 7, 7, 7, 7] 9
              "image/webp",
            .log (.errorResponse "AccessDenied"),
            .close { data := [7, 8, 9], readErr := none }]
      ∧ (handler readOnlyStore demoCodec demoConfig () "/photos/a.jpg".toList).response
        = [80, 7, 7, 7, 7, 7, 7, 7, 7] :=
  put_failure_after_response readOnlyStore demoCodec demoConfig () "/photos/a.jpg".toList
    { data := [7, 8, 9], readErr := none } [7, 8, 9]
    demoDst 80 [80, 7, 7, 7, 7, 7, 7, 7, 7] (.errorResponse "AccessDenied")
    (by decide) rfl rfl (by decide) (by decide) rfl rfl (by decide)

/-- C9. Dimension contract: with positive configured `X` and `Y`, every image
the handler hands to the encoder has bounds from (0,0) to (X,Y), hence width
`X` and height `Y`, whatever the decoded source image is. -/
theorem encoder_input_bounds (st : Store σ) (cd : Codec S O Q) (config : Config Q)
    (s : σ) (path : List Char) (img : RGBA) (options : O)
    (hx : 0 < config.X) (hy : 0 < config.Y)
    (hmem : Event.encode img options ∈ (handler st cd config s path).trace) :
    img.Rect = { Min := { X := 0, Y := 0 }, Max := { X := config.X, Y := config.Y } }
      ∧ img.Rect.Dx = config.X ∧ img.Rect.Dy = config.Y := by
  have key : img.Rect = { Min := { X := 0, Y := 0 }, Max := { X := config.X, Y := config.Y } } := by
    simp only [handler, missBranch, hitBranch] at hmem
    repeat' split at hmem
    all_goals simp at hmem
    all_goals
      obtain ⟨himg, _⟩ := hmem
      rw [himg]
      exact (NewRGBA_Rect_setPix (by assumption) _ _).trans (Rect_of_pos hx hy)
  refine ⟨key, ?_, ?_⟩
  · simp only [key, Rectangle.Dx, sub_zero]
    exact wrapInt64_of_range config.X_range.1 config.X_range.2
  · simp only [key, Rectangle.Dy, sub_zero]
    exact wrapInt64_of_range config.Y_range.1 config.Y_range.2

/-- Witness for C9: an 8-byte 2×1 buffer reaches the encoder. -/
theorem encoder_input_bounds_witness :
    ({ demoDst with Pix := [7, 7, 7, 7, 7, 7, 7, 7] } : RGBA).Rect
        = { Min := { X := 0, Y := 0 }, Max := { X := demoConfig.X, Y := demoConfig.Y } }
      ∧ ({ demoDst with Pix := [7, 7, 7, 7, 7, 7, 7, 7] } : RGBA).Rect.Dx = demoConfig.X
      ∧ ({ demoDst with Pix := [7, 7, 7, 7, 7, 7, 7, 7] } : RGBA).Rect.Dy = demoConfig.Y :=
  encoder_input_bounds mapStore demoCodec demoConfig demoBucket "/photos/a.jpg".toList
    { demoDst with Pix := [7, 7, 7, 7, 7, 7, 7, 7] } 80 (by decide) (by decide) (by decide)

/-- C3. Idempotence on a map store: if the thumbnail key is absent and the
first run fetches, decodes, resizes, encodes (bytes `b`) and stores, then the
first response is `b`, and a second run for the same path on the resulting
store takes the hit branch (existence check, get at the thumbnail key, copy)
and responds with the same bytes `b`. -/
theorem resolve_twice_same_bytes (cd : Codec S O Q) (config : Config Q)
    (s : MapStore) (path : List Char) (object : Object) (srcImage : S) (dst : RGBA)
    (options : O) (b : Bytes)
    (habsent : s (thumbPath config.ThumbPath path) = none)
    (hget : mapStore.getObject s config.Bucket path = .ok object)
    (hdec : cd.decode object = .ok srcImage)
    (hnew : NewRGBA (Rect 0 0 config.X config.Y) = some dst)
    (hthumb : (cd.thumbnail dst srcImage).2 = none)
    (hopt : cd.newLossyEncoderOptions config.Quality = .ok options)
    (henc : cd.encode { dst with Pix := (cd.thumbnail dst srcImage).1 } options = .ok b) :
    (handler mapStore cd config s path).response = b
      ∧ (handler mapStore cd config s path).store (thumbPath config.ThumbPath path) = some b
      ∧ (handler mapStore cd config (handler mapStore cd config s path).store path).trace
        = [.statObject config.Bucket (thumbPath config.ThumbPath path),
            .getObject config.Bucket (thumbPath config.ThumbPath path),
            .ioCopy { data := b, readErr := none }]
      ∧ (handler mapStore cd config (handler mapStore cd config s path).store path).response
        = b := by
  unfold thumbPath at *
  have hstat : mapStore.statObject s config.Bucket (Join [config.ThumbPath, path])
      = some (.errorResponse "NoSuchKey") := by
    simp [mapStore, habsent]
  have hput : (mapStore.putObject s config.Bucket (Join [config.ThumbPath, path]) b b.length
      "image/webp").2 = none := rfl
  have h1 : (handler mapStore cd config s path).store
      = fun k2 => if k2 = Join [config.ThumbPath, path] then some b else s k2 := by
    simp only [handler, hstat, missBranch, hget, hdec, hnew, hthumb, hopt, henc, hput, if_true]
    rfl
  have h2 : (handler mapStore cd config s path).response = b := by
    simp only [handler, hstat, missBranch, hget, hdec, hnew, hthumb, hopt, henc, hput, if_true]
  refine ⟨h2, ?_, ?_, ?_⟩
  · rw [h1]; simp
  · rw [h1]; simp [handler, hitBranch, mapStore]
  · rw [h1]; simp [handler, hitBranch, mapStore]

/-- Witness for C3: `/photos/a.jpg` requested twice. -/
theorem resolve_twice_same_bytes_witness :
    (handler mapStore demoCodec demoConfig demoBucket "/photos/a.jpg".toList).response
        = [80, 7, 7, 7, 7, 7, 7, 7, 7]
      ∧ (handler mapStore demoCodec demoConfig demoBucket "/photos/a.jpg".toList).store
          (thumbPath demoConfig.ThumbPath "/photos/a.jpg".toList)
        = some [80, 7, 7, 7, 7, 7, 7, 7, 7]
      ∧ (handler mapStore demoCodec demoConfig
          (handler mapStore demoCodec demoConfig demoBucket "/photos/a.jpg".toList).store
          "/photos/a.jpg".toList).trace
        = [.statObject demoConfig.Bucket (thumbPath demoConfig.ThumbPath "/photos/a.jpg".toList),
            .getObject demoConfig.Bucket (thumbPath demoConfig.ThumbPath "/photos/a.jpg".toList),
            .ioCopy { data := [80, 7, 7, 7, 7, 7, 7, 7, 7], readErr := none }]
      ∧ (handler mapStore demoCodec demoConfig
          (handler mapStore demoCodec demoConfig demoBucket "/photos/a.jpg".toList).store
          "/photos/a.jpg".toList).response
        = [80, 7, 7, 7, 7, 7, 7, 7, 7] :=
  resolve_twice_same_bytes demoCodec demoConfig demoBucket "/photos/a.jpg".toList
    { data := [7, 8, 9], readErr := none } [7, 8, 9] demoDst 80 [80, 7, 7, 7, 7, 7, 7, 7, 7]
    (by decide) rfl rfl (by decide) (by decide) rfl rfl

/-- C10. Write-once frame property on a map store: a key present before the
request maps to the same bytes afterwards; every key other than the thumbnail
key is unchanged (present or absent); and any store write in the trace is to
the thumbnail key, which was absent before the request. -/
theorem present_keys_unchanged (cd : Codec S O Q) (config : Config Q)
    (s : MapStore) (path : List Char) (k : List Char) (v : Bytes)
    (hk : s k = some v) :
    (handler mapStore cd config s path).store k = some v
      ∧ (∀ k2, k2 ≠ thumbPath config.ThumbPath path →
          (handler mapStore cd config s path).store k2 = s k2)
      ∧ (∀ bucket key data size contentType,
          Event.putObject bucket key data size contentType
            ∈ (handler mapStore cd config s path).trace →
          key = thumbPath config.ThumbPath path ∧ s key = none) := by
  unfold thumbPath at *
  have hframe : ∀ k2, (s k2 = none → k2 ≠ Join [config.ThumbPath, path]) →
      (handler mapStore cd config s path).store k2 = s k2 := by
    intro k2 hk2
    simp only [handler, missBranch, hitBranch]
    repeat' split
    all_goals first
      | rfl
      | (simp only [mapStore]
         have habs : s (Join [config.ThumbPath, path]) = none := by
           cases hs : s (Join [config.ThumbPath, path]) with
           | none => rfl
           | some w => simp_all [mapStore]
         have hne : k2 ≠ Join [config.ThumbPath, path] := by
           cases hs2 : s k2 with
           | none => exact hk2 hs2
           | some w => intro he; rw [he, habs] at hs2; cases hs2
         simp [hne])
  refine ⟨?_, ?_, ?_⟩
  · rw [hframe k (fun h => by rw [hk] at h; cases h), hk]
  · intro k2 hk2
    exact hframe k2 (fun _ => hk2)
  · intro bucket key data size contentType hmem
    simp only [handler, missBranch, hitBranch] at hmem
    repeat' split at hmem
    all_goals simp at hmem
    all_goals
      obtain ⟨_, hkey, _⟩ := hmem
      refine ⟨hkey, ?_⟩
      rw [hkey]
      cases hs : s (Join [config.ThumbPath, path]) with
      | none => rfl
      | some w => simp_all [mapStore]

/-- Witness for C10: the original survives its own thumbnailing. -/
theorem present_keys_unchanged_witness :
    (handler mapStore demoCodec demoConfig demoBucket "/photos/a.jpg".toList).store
        "/photos/a.jpg".toList = some [7, 8, 9]
      ∧ (∀ k2, k2 ≠ thumbPath demoConfig.ThumbPath "/photos/a.jpg".toList →
          (handler mapStore demoCodec demoConfig demoBucket "/photos/a.jpg".toList).store k2
            = demoBucket k2)
      ∧ (∀ bucket key data size contentType,
          Event.putObject bucket key data size contentType
            ∈ (handler mapStore demoCodec demoConfig demoBucket "/photos/a.jpg".toList).trace →
          key = thumbPath demoConfig.ThumbPath "/photos/a.jpg".toList ∧ demoBucket key = none) :=
  present_keys_unchanged demoCodec demoConfig demoBucket "/photos/a.jpg".toList
    "/photos/a.jpg".toList [7, 8, 9] (by decide)

end HandlerTheorems

end Minthumb
